import Mathlib

/-!
Verification of the task-repository core of a small to-do application.

The source program (src/src/main.rs) keeps an in-memory `TaskRepository`
holding a vector of `Task` records and a `next_id` counter, with operations
`add_task`, `edit_task`, `delete_task`, `mark_completed`, and persistence
via `save_to_file` / `load_from_file` (RON text serialization through the
external `ron` crate).

Shallow embedding conventions:
* Rust `String` is modelled as `List Char`, `usize` as `Nat` (the program
  treats ids as an unbounded monotonically increasing counter).
* `iter_mut().find(..)` followed by a field update is modelled by
  `modifyFirst`, and `Vec::retain` by `List.filter`.
* File system effects are made explicit: `save_to_file` takes the outcome of
  `File::create` and `write_all` as boolean parameters, `load_from_file`
  takes the file contents as `Option (List Char)` (`none` = open/read failed).

Everything lives in namespace `Todo` (`Task` alone would clash with the
core library's `Task` type).
-/

namespace Todo

/-- A single to-do item (struct `Task` in main.rs): unique id, free-form
description, completion flag. -/
structure Task where
  id : Nat
  description : List Char
  completed : Bool
deriving DecidableEq, Repr

/-- The aggregate root (struct `TaskRepository` in main.rs): ordered task
sequence plus the next id to assign. -/
structure TaskRepository where
  tasks : List Task
  next_id : Nat
deriving DecidableEq, Repr

/-- `TaskRepository::default()` (derive Default): empty task list, counter 0. -/
def emptyRepo : TaskRepository := { tasks := [], next_id := 0 }

/-- `fn add_task(&mut self, description: String)`: push a task with
`id = next_id`, the given description, `completed = false`; then
`next_id += 1`. -/
def add_task (r : TaskRepository) (description : List Char) : TaskRepository :=
  { tasks := r.tasks ++ [{ id := r.next_id, description := description, completed := false }],
    next_id := r.next_id + 1 }

/-- `self.tasks.iter_mut().find(|task| p(task))` followed by a mutation `f`
of the found task: rewrite the first element satisfying `p`, keep the rest. -/
def modifyFirst (p : Task → Bool) (f : Task → Task) : List Task → List Task
  | [] => []
  | t :: ts => if p t then f t :: ts else t :: modifyFirst p f ts

/-- `fn edit_task(&mut self, id: usize, description: String)`: replace the
description of the first task whose id matches; silent no-op otherwise. -/
def edit_task (r : TaskRepository) (id : Nat) (description : List Char) : TaskRepository :=
  { r with
    tasks :=
      modifyFirst (fun t => t.id == id)
        (fun t => { t with description := description }) r.tasks }

/-- `fn delete_task(&mut self, id: usize)`: `self.tasks.retain(|task| task.id != id)`. -/
def delete_task (r : TaskRepository) (id : Nat) : TaskRepository :=
  { r with tasks := r.tasks.filter (fun t => t.id != id) }

/-- `fn mark_completed(&mut self, id: usize)`: set `completed = true` on the
first task whose id matches; silent no-op otherwise. -/
def mark_completed (r : TaskRepository) (id : Nat) : TaskRepository :=
  { r with
    tasks :=
      modifyFirst (fun t => t.id == id)
        (fun t => { t with completed := true }) r.tasks }

/-- A sequence of `add_task` calls, one per description, in order. -/
def addAll (r : TaskRepository) (ds : List (List Char)) : TaskRepository :=
  ds.foldl add_task r

/-- Repository states reachable from `TaskRepository::default()` by any
sequence of the four mutation operations. -/
inductive Reachable : TaskRepository → Prop
  | empty : Reachable emptyRepo
  | add (r : TaskRepository) (d : List Char) : Reachable r → Reachable (add_task r d)
  | edit (r : TaskRepository) (i : Nat) (d : List Char) : Reachable r → Reachable (edit_task r i d)
  | del (r : TaskRepository) (i : Nat) : Reachable r → Reachable (delete_task r i)
  | mark (r : TaskRepository) (i : Nat) : Reachable r → Reachable (mark_completed r i)

/-- Reachability under the caller-side precondition that `add_task` is only
invoked with a non-empty description (the GUI guards the add button with
`!self.new_description.is_empty()`); the other operations are unrestricted. -/
inductive ReachableNE : TaskRepository → Prop
  | empty : ReachableNE emptyRepo
  | add (r : TaskRepository) (d : List Char) : ReachableNE r → d ≠ [] →
      ReachableNE (add_task r d)
  | edit (r : TaskRepository) (i : Nat) (d : List Char) : ReachableNE r →
      ReachableNE (edit_task r i d)
  | del (r : TaskRepository) (i : Nat) : ReachableNE r → ReachableNE (delete_task r i)
  | mark (r : TaskRepository) (i : Nat) : ReachableNE r → ReachableNE (mark_completed r i)

/-- Reachability when both `add_task` and `edit_task` are only invoked with
non-empty descriptions. -/
inductive ReachableGuarded : TaskRepository → Prop
  | empty : ReachableGuarded emptyRepo
  | add (r : TaskRepository) (d : List Char) : ReachableGuarded r → d ≠ [] →
      ReachableGuarded (add_task r d)
  | edit (r : TaskRepository) (i : Nat) (d : List Char) : ReachableGuarded r → d ≠ [] →
      ReachableGuarded (edit_task r i d)
  | del (r : TaskRepository) (i : Nat) : ReachableGuarded r → ReachableGuarded (delete_task r i)
  | mark (r : TaskRepository) (i : Nat) : ReachableGuarded r → ReachableGuarded (mark_completed r i)

/-- The double-quote character, written via its code point to keep the
development free of escape-heavy character literals. -/
def qChar : Char := Char.ofNat 34

/-- The backslash character, via its code point. -/
def bChar : Char := Char.ofNat 92

/-- The decimal digit character for a value below ten. -/
def digitChar (d : Nat) : Char := Char.ofNat (48 + d)

/-- Decimal rendering of a natural number, most significant digit first
(the textual form of `usize` fields in the persisted file). -/
def natToDigits (n : Nat) : List Char :=
  if n < 10 then [digitChar n] else natToDigits (n / 10) ++ [digitChar (n % 10)]
decreasing_by exact Nat.div_lt_self (by omega) (by omega)

/-- Modelled from the spec: string escaping of the serialization format
(the `ron` crate, an external dependency whose sources are not part of this
repository). The spec fixes only that the format "must round-trip all four
field types losslessly including empty strings and zero values"; the
delimiter and the escape character are escaped, every other character is
emitted verbatim. -/
def escapeChar (c : Char) : List Char :=
  if c = qChar ∨ c = bChar then [bChar, c] else [c]

/-- A string literal of the persisted format: quoted, characters escaped. -/
def encodeString (s : List Char) : List Char :=
  qChar :: (s.map escapeChar).flatten ++ [qChar]

/-- The token `true`. -/
def tokTrue : List Char := ['t', 'r', 'u', 'e']

/-- The token `false`. -/
def tokFalse : List Char := ['f', 'a', 'l', 's', 'e']

/-- Boolean literal of the persisted format. -/
def encodeBool (b : Bool) : List Char := if b then tokTrue else tokFalse

/-- The token `(id:` opening a task record. -/
def tokId : List Char := ['(', 'i', 'd', ':']

/-- The token `,description:`. -/
def tokDesc : List Char :=
  [',', 'd', 'e', 's', 'c', 'r', 'i', 'p', 't', 'i', 'o', 'n', ':']

/-- The token `,completed:`. -/
def tokComp : List Char := [',', 'c', 'o', 'm', 'p', 'l', 'e', 't', 'e', 'd', ':']

/-- The token `(tasks:[` opening the repository record. -/
def tokRepo : List Char := ['(', 't', 'a', 's', 'k', 's', ':', '[']

/-- The token `,next_id:` between the task list and the counter. -/
def tokNext : List Char := [',', 'n', 'e', 'x', 't', '_', 'i', 'd', ':']

/-- Modelled from the spec: one task record of the persisted format,
`(id:N,description:"...",completed:B)`. -/
def encodeTask (t : Task) : List Char :=
  tokId ++ natToDigits t.id ++ tokDesc ++ encodeString t.description ++
    tokComp ++ encodeBool t.completed ++ [')']

/-- Comma-separated task records (no trailing separator). -/
def encodeTaskList : List Task → List Char
  | [] => []
  | [t] => encodeTask t
  | t :: ts => encodeTask t ++ ',' :: encodeTaskList ts

/-- Modelled from the spec: the full persisted representation,
`(tasks:[...],next_id:N)` — an object with the ordered task sequence and the
integer counter, as section 6 of the spec describes. -/
def encodeRepo (r : TaskRepository) : List Char :=
  tokRepo ++ encodeTaskList r.tasks ++ ']' :: tokNext ++
    natToDigits r.next_id ++ [')']

/-- Numeric value of a decimal digit character. -/
def digitVal (c : Char) : Nat := c.toNat - 48

/-- Consume the maximal run of decimal digits, folding them onto `acc`. -/
def parseNatAux : List Char → Nat → Nat × List Char
  | [], acc => (acc, [])
  | c :: cs, acc =>
    if c.isDigit then parseNatAux cs (acc * 10 + digitVal c) else (acc, c :: cs)

/-- Parse a decimal natural number (at least one digit required). -/
def parseNat (cs : List Char) : Option (Nat × List Char) :=
  match cs with
  | [] => none
  | c :: cs' => if c.isDigit then some (parseNatAux (c :: cs') 0) else none

/-- Consume an expected literal token. -/
def dropToken : List Char → List Char → Option (List Char)
  | [], cs => some cs
  | _ :: _, [] => none
  | t :: ts, c :: cs => if c = t then dropToken ts cs else none

/-- Modelled from the spec: the character that an escape sequence of the
persisted format denotes. -/
def unescapeChar (e : Char) : Option Char :=
  if e = qChar then some qChar
  else if e = bChar then some bChar
  else if e = 'n' then some (Char.ofNat 10)
  else if e = 't' then some (Char.ofNat 9)
  else if e = 'r' then some (Char.ofNat 13)
  else if e = '0' then some (Char.ofNat 0)
  else none

/-- Parse the body of a string literal up to and including the closing
quote, resolving escape sequences. The flag records whether the previous
character was the escape character. -/
def parseStrBodyAux : Bool → List Char → Option (List Char × List Char)
  | _, [] => none
  | true, e :: cs =>
    match unescapeChar e, parseStrBodyAux false cs with
    | some u, some (s, r) => some (u :: s, r)
    | _, _ => none
  | false, c :: cs =>
    if c = qChar then some ([], cs)
    else if c = bChar then parseStrBodyAux true cs
    else
      match parseStrBodyAux false cs with
      | none => none
      | some (s, r) => some (c :: s, r)

/-- Parse the body of a string literal, starting outside any escape. -/
def parseStrBody (cs : List Char) : Option (List Char × List Char) :=
  parseStrBodyAux false cs

/-- Parse a quoted string literal. -/
def parseString (cs : List Char) : Option (List Char × List Char) :=
  match cs with
  | [] => none
  | c :: cs' => if c = qChar then parseStrBody cs' else none

/-- Parse a boolean literal. -/
def parseBool (cs : List Char) : Option (Bool × List Char) :=
  match dropToken tokTrue cs with
  | some r => some (true, r)
  | none =>
    match dropToken tokFalse cs with
    | some r => some (false, r)
    | none => none

/-- Parse one task record `(id:N,description:"...",completed:B)`. -/
def parseTask (cs : List Char) : Option (Task × List Char) :=
  match dropToken tokId cs with
  | none => none
  | some cs1 =>
    match parseNat cs1 with
    | none => none
    | some (n, cs2) =>
      match dropToken tokDesc cs2 with
      | none => none
      | some cs3 =>
        match parseString cs3 with
        | none => none
        | some (s, cs4) =>
          match dropToken tokComp cs4 with
          | none => none
          | some cs5 =>
            match parseBool cs5 with
            | none => none
            | some (b, cs6) =>
              match cs6 with
              | [] => none
              | c :: cs7 =>
                if c = ')' then some ({ id := n, description := s, completed := b }, cs7)
                else none

/-- Parse comma-separated task records up to and including the closing `]`.
The fuel argument bounds the recursion; `decodeRepo` supplies the length of
the input, which suffices because every record consumes at least one
character. -/
def parseTaskListAux : Nat → List Char → Option (List Task × List Char)
  | 0, _ => none
  | _ + 1, [] => none
  | fuel + 1, c :: cs =>
    if c = ']' then some ([], cs)
    else
      (parseTask (c :: cs)).bind fun tr =>
        if tr.2.head? = some ',' then
          (parseTaskListAux fuel tr.2.tail).map fun tsr => (tr.1 :: tsr.1, tsr.2)
        else if tr.2.head? = some ']' then some ([tr.1], tr.2.tail)
        else none

/-- Modelled from the spec: the decoding half of the persistence format
(`ron::de::from_str` specialised to the repository shape). Accepts exactly
the grammar `(tasks:[...],next_id:N)` and rejects everything else; no
validation of the decoded state is performed. -/
def decodeRepo (cs : List Char) : Option TaskRepository :=
  match dropToken tokRepo cs with
  | none => none
  | some cs1 =>
    match parseTaskListAux cs1.length cs1 with
    | none => none
    | some (ts, cs2) =>
      match dropToken tokNext cs2 with
      | none => none
      | some cs3 =>
        match parseNat cs3 with
        | none => none
        | some (n, cs4) =>
          if cs4 = [')'] then some { tasks := ts, next_id := n } else none

/-- `fn load_from_file() -> Self`: the argument is the observable content of
the persistent file — `none` when `File::open` or `read_to_string` fails,
`some contents` otherwise. A parse failure, like a read failure, falls back
to `TaskRepository::default()`. -/
def load_from_file (file : Option (List Char)) : TaskRepository :=
  match file with
  | none => emptyRepo
  | some contents =>
    match decodeRepo contents with
    | none => emptyRepo
    | some repository => repository

/-- Observable outcome of `fn save_to_file(&self)`. -/
inductive SaveResult
  | ok (written : List Char)
  | skipped
  | panicked
deriving DecidableEq, Repr

/-- `fn save_to_file(&self)`: serialization (`ron::ser::to_string`, which
always succeeds on this data) feeds `File::create`; a create failure is
silently dropped by the `if let`, but a failure of `write_all` hits the
`.unwrap()` and panics. `createOk` and `writeOk` are the outcomes of the two
file-system calls; the repository itself is taken immutably (`&self`), so
the in-memory state cannot change. -/
def save_to_file (r : TaskRepository) (createOk writeOk : Bool) : SaveResult :=
  if createOk then
    if writeOk then SaveResult.ok (encodeRepo r) else SaveResult.panicked
  else SaveResult.skipped

/-- A well-formed persisted state that nevertheless violates the id
invariants maintained by the operations: duplicate ids, and a `next_id`
that does not exceed them. -/
def badRepo : TaskRepository :=
  { tasks := [{ id := 5, description := ['a'], completed := false },
              { id := 5, description := ['b'], completed := true }],
    next_id := 0 }

/-- The persisted text of `badRepo`. -/
def badContents : List Char := encodeRepo badRepo

theorem mem_modifyFirst {p : Task → Bool} {f : Task → Task} {l : List Task} {t : Task}
    (h : t ∈ modifyFirst p f l) : t ∈ l ∨ ∃ u ∈ l, t = f u := by
  induction l with
  | nil => simp [modifyFirst] at h
  | cons a l ih =>
    rw [modifyFirst] at h
    by_cases hp : p a
    · rw [if_pos hp] at h
      rcases List.mem_cons.1 h with h | h
      · exact Or.inr ⟨a, List.mem_cons_self a l, h⟩
      · exact Or.inl (List.mem_cons_of_mem a h)
    · rw [if_neg hp] at h
      rcases List.mem_cons.1 h with h | h
      · exact Or.inl (h ▸ List.mem_cons_self a l)
      · rcases ih h with h | ⟨u, hu, he⟩
        · exact Or.inl (List.mem_cons_of_mem a h)
        · exact Or.inr ⟨u, List.mem_cons_of_mem a hu, he⟩

theorem modifyFirst_map (p : Task → Bool) (f : Task → Task) (g : Task → Nat)
    (hf : ∀ t, g (f t) = g t) (l : List Task) :
    (modifyFirst p f l).map g = l.map g := by
  induction l with
  | nil => rfl
  | cons a l ih =>
    rw [modifyFirst]
    by_cases hp : p a
    · rw [if_pos hp]
      simp [hf a]
    · rw [if_neg hp]
      simp [ih]

theorem modifyFirst_not_found (p : Task → Bool) (f : Task → Task) {l : List Task}
    (h : ∀ t ∈ l, p t = false) : modifyFirst p f l = l := by
  induction l with
  | nil => rfl
  | cons a l ih =>
    rw [modifyFirst, if_neg (by simp [h a (List.mem_cons_self a l)]),
      ih fun t ht => h t (List.mem_cons_of_mem a ht)]

theorem modifyFirst_found (p : Task → Bool) (f : Task → Task) {l : List Task}
    (h : ∃ u ∈ l, p u = true) :
    ∃ k, ∃ hk : k < l.length, p (l.get ⟨k, hk⟩) = true ∧
      modifyFirst p f l = l.set k (f (l.get ⟨k, hk⟩)) := by
  induction l with
  | nil => simp at h
  | cons a l ih =>
    by_cases hp : p a
    · exact ⟨0, by simp, by simpa using hp, by rw [modifyFirst, if_pos hp]; rfl⟩
    · have h' : ∃ u ∈ l, p u = true := by
        rcases h with ⟨u, hu, hpu⟩
        rcases List.mem_cons.1 hu with rfl | hu
        · exact absurd hpu (by simp [hp])
        · exact ⟨u, hu, hpu⟩
      rcases ih h' with ⟨k, hk, hpk, he⟩
      exact ⟨k + 1, by simpa using Nat.succ_lt_succ hk, by simpa using hpk,
        by rw [modifyFirst, if_neg hp, he]; rfl⟩

theorem dropToken_append (t rest : List Char) : dropToken t (t ++ rest) = some rest := by
  induction t with
  | nil => rfl
  | cons c t ih => rw [List.cons_append, dropToken, if_pos rfl, ih]

theorem digitChar_spec : ∀ d, d < 10 →
    (digitChar d).isDigit = true ∧ digitVal (digitChar d) = d := by decide

theorem parseNatAux_cons_digit {c : Char} (cs : List Char) (a : Nat)
    (h : c.isDigit = true) :
    parseNatAux (c :: cs) a = parseNatAux cs (a * 10 + digitVal c) := by
  rw [parseNatAux, if_pos h]

theorem parseNatAux_cons_not_digit {c : Char} (cs : List Char) (a : Nat)
    (h : c.isDigit = false) : parseNatAux (c :: cs) a = (a, c :: cs) := by
  rw [parseNatAux, if_neg (by simp [h])]

theorem natToDigits_head (n : Nat) :
    ∃ d tl, d < 10 ∧ natToDigits n = digitChar d :: tl := by
  induction n using Nat.strong_induction_on with
  | _ n ih =>
    by_cases h : n < 10
    · exact ⟨n, [], h, by rw [natToDigits, if_pos h]⟩
    · rcases ih (n / 10) (Nat.div_lt_self (by omega) (by omega)) with ⟨d, tl, hd, he⟩
      exact ⟨d, tl ++ [digitChar (n % 10)], hd,
        by rw [natToDigits, if_neg h, he, List.cons_append]⟩

theorem parseNatAux_digits (n : Nat) : ∀ (acc : Nat) (rest : List Char), ∃ T,
    parseNatAux (natToDigits n ++ rest) acc = parseNatAux rest (acc * T + n) := by
  induction n using Nat.strong_induction_on with
  | _ n ih =>
    intro acc rest
    by_cases h : n < 10
    · refine ⟨10, ?_⟩
      rw [natToDigits, if_pos h, List.singleton_append,
        parseNatAux_cons_digit _ _ (digitChar_spec n h).1, (digitChar_spec n h).2]
    · rcases ih (n / 10) (Nat.div_lt_self (by omega) (by omega)) acc
        (digitChar (n % 10) :: rest) with ⟨T, hT⟩
      refine ⟨T * 10, ?_⟩
      rw [natToDigits, if_neg h, List.append_assoc, List.singleton_append, hT,
        parseNatAux_cons_digit _ _ (digitChar_spec (n % 10) (by omega)).1,
        (digitChar_spec (n % 10) (by omega)).2]
      have : (acc * T + n / 10) * 10 + n % 10 = acc * (T * 10) + n := by
        rw [Nat.add_mul, ← Nat.mul_assoc]
        omega
      rw [this]

theorem parseNat_append (n : Nat) (rest : List Char)
    (h : parseNatAux rest n = (n, rest)) :
    parseNat (natToDigits n ++ rest) = some (n, rest) := by
  rcases natToDigits_head n with ⟨d, tl, hd, he⟩
  rw [he, List.cons_append, parseNat, if_pos (digitChar_spec d hd).1,
    ← List.cons_append, ← he]
  rcases parseNatAux_digits n 0 rest with ⟨T, hT⟩
  rw [hT, Nat.zero_mul, Nat.zero_add, h]

theorem parseStrBody_round (s rest : List Char) :
    parseStrBody ((s.map escapeChar).flatten ++ qChar :: rest) = some (s, rest) := by
  induction s with
  | nil =>
    simp only [List.map_nil, List.flatten_nil, List.nil_append]
    rw [parseStrBody, parseStrBodyAux, if_pos rfl]
  | cons c s ih =>
    rw [parseStrBody] at ih ⊢
    by_cases hc : c = qChar ∨ c = bChar
    · have hesc : escapeChar c = [bChar, c] := by rw [escapeChar, if_pos hc]
      have hu : unescapeChar c = some c := by
        rcases hc with rfl | rfl
        · rw [unescapeChar, if_pos rfl]
        · rw [unescapeChar, if_neg (by decide), if_pos rfl]
      simp only [List.map_cons, List.flatten_cons, hesc, List.cons_append,
        List.nil_append, List.append_assoc]
      rw [parseStrBodyAux, if_neg (by decide : ¬ (bChar = qChar)), if_pos rfl,
        parseStrBodyAux, hu, ih]
    · push_neg at hc
      have hesc : escapeChar c = [c] := by rw [escapeChar, if_neg (by tauto)]
      simp only [List.map_cons, List.flatten_cons, hesc, List.cons_append,
        List.nil_append, List.append_assoc]
      rw [parseStrBodyAux, if_neg hc.1, if_neg hc.2, ih]

theorem parseString_round (s rest : List Char) :
    parseString (encodeString s ++ rest) = some (s, rest) := by
  have h : encodeString s ++ rest =
      qChar :: ((s.map escapeChar).flatten ++ qChar :: rest) := by
    simp [encodeString, List.append_assoc]
  rw [h, parseString, if_pos rfl, parseStrBody_round]

theorem parseBool_round (b : Bool) (rest : List Char) :
    parseBool (encodeBool b ++ rest) = some (b, rest) := by
  cases b
  · have hne : dropToken tokTrue (encodeBool false ++ rest) = none := by
      rw [show encodeBool false ++ rest = 'f' :: (['a', 'l', 's', 'e'] ++ rest) from rfl]
      rw [show tokTrue = 't' :: ['r', 'u', 'e'] from rfl, dropToken,
        if_neg (by decide : ¬ ('f' = 't'))]
    rw [parseBool, hne, show encodeBool false = tokFalse from rfl, dropToken_append]
  · rw [parseBool, show encodeBool true = tokTrue from rfl, dropToken_append]

theorem parseTask_round (t : Task) (rest : List Char) :
    parseTask (encodeTask t ++ rest) = some (t, rest) := by
  have h1 : encodeTask t ++ rest =
      tokId ++ (natToDigits t.id ++ (tokDesc ++ (encodeString t.description ++
        (tokComp ++ (encodeBool t.completed ++ ')' :: rest))))) := by
    simp [encodeTask, List.append_assoc]
  have hstop : parseNatAux (tokDesc ++ (encodeString t.description ++
      (tokComp ++ (encodeBool t.completed ++ ')' :: rest)))) t.id =
      (t.id, tokDesc ++ (encodeString t.description ++
        (tokComp ++ (encodeBool t.completed ++ ')' :: rest)))) :=
    parseNatAux_cons_not_digit _ _ (by decide)
  rw [h1]
  simp only [parseTask, dropToken_append, parseNat_append _ _ hstop,
    parseString_round, parseBool_round, if_pos rfl, if_true]

theorem encodeTask_eq_cons (t : Task) : ∃ tl, encodeTask t = '(' :: tl := ⟨_, rfl⟩

theorem parseTaskListAux_round (ts : List Task) : ∀ (rest : List Char) (fuel : Nat),
    (encodeTaskList ts ++ ']' :: rest).length ≤ fuel →
    parseTaskListAux fuel (encodeTaskList ts ++ ']' :: rest) = some (ts, rest) := by
  induction ts with
  | nil =>
    intro rest fuel h
    rw [encodeTaskList, List.nil_append] at h ⊢
    cases fuel with
    | zero => simp at h
    | succ f => rw [parseTaskListAux, if_pos rfl]
  | cons t ts ih =>
    intro rest fuel h
    rcases encodeTask_eq_cons t with ⟨tl, htl⟩
    cases ts with
    | nil =>
      cases fuel with
      | zero =>
        rw [encodeTaskList] at h
        simp [List.length_append] at h
      | succ f =>
        rw [encodeTaskList, htl, List.cons_append, parseTaskListAux,
          if_neg (by decide : ¬ ('(' = ']')), ← List.cons_append, ← htl,
          parseTask_round]
        simp only [Option.some_bind, List.head?_cons, List.tail_cons,
          if_neg (by decide : ¬ (some ']' = some ',')), if_pos rfl, if_true]
    | cons t2 ts2 =>
      have he : encodeTaskList (t :: t2 :: ts2) =
          encodeTask t ++ ',' :: encodeTaskList (t2 :: ts2) := by
        simp only [encodeTaskList]
      cases fuel with
      | zero =>
        rw [he] at h
        simp [List.length_append] at h
      | succ f =>
        have h1 : encodeTaskList (t :: t2 :: ts2) ++ ']' :: rest =
            encodeTask t ++ ',' :: (encodeTaskList (t2 :: ts2) ++ ']' :: rest) := by
          rw [he, List.append_assoc, List.cons_append]
        have hb : (encodeTaskList (t2 :: ts2) ++ ']' :: rest).length ≤ f := by
          rw [h1] at h
          simp only [List.length_append, List.length_cons] at h ⊢
          omega
        rw [h1, htl, List.cons_append, parseTaskListAux,
          if_neg (by decide : ¬ ('(' = ']')), ← List.cons_append, ← htl,
          parseTask_round]
        simp only [Option.some_bind, List.head?_cons, List.tail_cons, if_pos rfl,
          if_true, ih rest f hb, Option.map_some']

theorem decodeRepo_encodeRepo (r : TaskRepository) :
    decodeRepo (encodeRepo r) = some r := by
  have h1 : encodeRepo r =
      tokRepo ++ (encodeTaskList r.tasks ++ ']' ::
        (tokNext ++ (natToDigits r.next_id ++ [')']))) := by
    simp [encodeRepo, List.append_assoc]
  have hlist := parseTaskListAux_round r.tasks
    (tokNext ++ (natToDigits r.next_id ++ [')']))
    (encodeTaskList r.tasks ++ ']' ::
      (tokNext ++ (natToDigits r.next_id ++ [')']))).length (Nat.le_refl _)
  have hnum := parseNat_append r.next_id [')']
    (parseNatAux_cons_not_digit _ _ (by decide))
  rw [h1]
  simp only [decodeRepo, dropToken_append, hlist, hnum, if_pos rfl, if_true]

theorem reachable_inv {r : TaskRepository} (h : Reachable r) :
    (∀ t ∈ r.tasks, t.id < r.next_id) ∧
    (r.tasks.map Task.id).Pairwise (· < ·) := by
  induction h with
  | empty => simp [emptyRepo]
  | add r d _ ih =>
    constructor
    · intro t ht
      rcases List.mem_append.1 ht with ht | ht
      · exact Nat.lt_succ_of_lt (ih.1 t ht)
      · rw [List.mem_singleton.1 ht]
        exact Nat.lt_succ_self _
    · rw [show (add_task r d).tasks =
          r.tasks ++ [{ id := r.next_id, description := d, completed := false }] from rfl,
        List.map_append, List.pairwise_append]
      refine ⟨ih.2, by simp, ?_⟩
      intro a ha b hb
      rcases List.mem_map.1 ha with ⟨u, hu, rfl⟩
      simp only [List.map_cons, List.map_nil, List.mem_singleton] at hb
      rw [hb]
      exact ih.1 u hu
  | edit r i d _ ih =>
    constructor
    · intro t ht
      rcases mem_modifyFirst ht with ht | ⟨u, hu, rfl⟩
      · exact ih.1 t ht
      · exact ih.1 u hu
    · rw [show (edit_task r i d).tasks =
          modifyFirst (fun t => t.id == i)
            (fun t => { t with description := d }) r.tasks from rfl,
        modifyFirst_map (fun t => t.id == i)
          (fun t => { t with description := d }) Task.id (fun t => rfl)]
      exact ih.2
  | del r i _ ih =>
    constructor
    · intro t ht
      exact ih.1 t (List.mem_of_mem_filter ht)
    · exact ih.2.sublist (((List.filter_sublist r.tasks).map Task.id))
  | mark r i _ ih =>
    constructor
    · intro t ht
      rcases mem_modifyFirst ht with ht | ⟨u, hu, rfl⟩
      · exact ih.1 t ht
      · exact ih.1 u hu
    · rw [show (mark_completed r i).tasks =
          modifyFirst (fun t => t.id == i)
            (fun t => { t with completed := true }) r.tasks from rfl,
        modifyFirst_map (fun t => t.id == i)
          (fun t => { t with completed := true }) Task.id (fun t => rfl)]
      exact ih.2

theorem reachable_addAll {r : TaskRepository} (h : Reachable r)
    (ds : List (List Char)) : Reachable (addAll r ds) := by
  induction ds generalizing r with
  | nil => exact h
  | cons d ds ih => exact ih (Reachable.add r d h)

/-- C1: for every repository state reachable from the empty repository by
any sequence of add_task/edit_task/delete_task/mark_completed calls,
serializing with save_to_file's encoding and deserializing with
load_from_file's decoding yields a repository equal to the original — same
tasks in the same order, same descriptions (empty ones included), same
completed flags, same next_id (zero included). -/
theorem save_load_round_trip (r : TaskRepository) (_h : Reachable r) :
    save_to_file r true true = SaveResult.ok (encodeRepo r) ∧
    load_from_file (some (encodeRepo r)) = r := by
  refine ⟨rfl, ?_⟩
  simp only [load_from_file, decodeRepo_encodeRepo]

/-- Witness for C1 at the reachable state built by add "B", add "" (an
empty description reached via the repository's own API), mark_completed 0 —
a state with next_id 2, a completed task and an empty description. -/
theorem save_load_round_trip_witness :
    save_to_file (mark_completed (add_task (add_task emptyRepo ['B']) []) 0) true true =
      SaveResult.ok
        (encodeRepo (mark_completed (add_task (add_task emptyRepo ['B']) []) 0)) ∧
    load_from_file
        (some (encodeRepo (mark_completed (add_task (add_task emptyRepo ['B']) []) 0))) =
      mark_completed (add_task (add_task emptyRepo ['B']) []) 0 :=
  save_load_round_trip _
    (Reachable.mark _ 0 (Reachable.add _ [] (Reachable.add _ ['B'] Reachable.empty)))

/-- C2: in every reachable state, next_id strictly exceeds every id in
tasks; ids appear in strictly increasing order, and they remain so after
any further sequence of add_task calls (so ids assigned by add_task are
strictly increasing in creation order and pairwise distinct); moreover no
operation ever decreases next_id — delete_task in particular leaves it
unchanged — so an id once assigned is never available again. -/
theorem next_id_dominates (r : TaskRepository) (h : Reachable r) :
    (∀ t ∈ r.tasks, t.id < r.next_id) ∧
    (∀ ds : List (List Char),
      ((addAll r ds).tasks.map Task.id).Pairwise (· < ·)) ∧
    (∀ (i : Nat) (d : List Char),
      r.next_id < (add_task r d).next_id ∧
      (edit_task r i d).next_id = r.next_id ∧
      (delete_task r i).next_id = r.next_id ∧
      (mark_completed r i).next_id = r.next_id) :=
  ⟨(reachable_inv h).1,
   fun ds => (reachable_inv (reachable_addAll h ds)).2,
   fun _ _ => ⟨Nat.lt_succ_self _, rfl, rfl, rfl⟩⟩

/-- Witness for C2 at the reachable state with one task. -/
theorem next_id_dominates_witness :
    (∀ t ∈ (add_task emptyRepo ['a']).tasks, t.id < (add_task emptyRepo ['a']).next_id) ∧
    (∀ ds : List (List Char),
      ((addAll (add_task emptyRepo ['a']) ds).tasks.map Task.id).Pairwise (· < ·)) ∧
    (∀ (i : Nat) (d : List Char),
      (add_task emptyRepo ['a']).next_id < (add_task (add_task emptyRepo ['a']) d).next_id ∧
      (edit_task (add_task emptyRepo ['a']) i d).next_id = (add_task emptyRepo ['a']).next_id ∧
      (delete_task (add_task emptyRepo ['a']) i).next_id = (add_task emptyRepo ['a']).next_id ∧
      (mark_completed (add_task emptyRepo ['a']) i).next_id = (add_task emptyRepo ['a']).next_id) :=
  next_id_dominates _ (Reachable.add _ ['a'] Reachable.empty)

/-- C3 counterexample: the claim says any failure to open or write is
silently swallowed with no panic; but when File::create succeeds and
write_all then fails, the `.unwrap()` in save_to_file panics. Concrete
input: the default repository with createOk = true, writeOk = false. -/
theorem save_write_failure_panics :
    save_to_file emptyRepo true false = SaveResult.panicked := rfl

/-- C3 amended: save_to_file silently swallows a File::create failure (and
a serialization failure, which cannot occur for this data) and surfaces no
error when create and write both succeed; but a write_all failure after a
successful create panics through the unwrap. The repository is taken by
immutable reference, so the in-memory state is unchanged in every case. -/
theorem save_failure_modes (r : TaskRepository) :
    (∀ writeOk : Bool, save_to_file r false writeOk = SaveResult.skipped) ∧
    save_to_file r true true = SaveResult.ok (encodeRepo r) ∧
    save_to_file r true false = SaveResult.panicked :=
  ⟨fun _ => rfl, rfl, rfl⟩

/-- C4: on a repository containing a task with id `i`, edit_task i d keeps
next_id, keeps the length and the positions of the task sequence, and
rewrites exactly one position — one holding a task with id `i` — replacing
only its description with `d` (`List.set` leaves every other element, and
the id and completed fields of the edited task, unchanged). -/
theorem edit_task_frame (r : TaskRepository) (i : Nat) (d : List Char)
    (h : ∃ t ∈ r.tasks, t.id = i) :
    (edit_task r i d).next_id = r.next_id ∧
    ∃ k, ∃ hk : k < r.tasks.length,
      (r.tasks.get ⟨k, hk⟩).id = i ∧
      (edit_task r i d).tasks =
        r.tasks.set k { r.tasks.get ⟨k, hk⟩ with description := d } := by
  have h' : ∃ u ∈ r.tasks, (u.id == i) = true := by
    rcases h with ⟨t, ht, hti⟩
    exact ⟨t, ht, beq_iff_eq.mpr hti⟩
  rcases modifyFirst_found (fun t => t.id == i)
    (fun t => { t with description := d }) h' with ⟨k, hk, hpk, he⟩
  exact ⟨rfl, k, hk, beq_iff_eq.mp hpk, he⟩

/-- Witness for C4 on the one-task repository. -/
theorem edit_task_frame_witness :
    (∃ t ∈ (add_task emptyRepo ['a']).tasks, t.id = 0) ∧
    ((edit_task (add_task emptyRepo ['a']) 0 ['b']).next_id =
        (add_task emptyRepo ['a']).next_id ∧
      ∃ k, ∃ hk : k < (add_task emptyRepo ['a']).tasks.length,
        ((add_task emptyRepo ['a']).tasks.get ⟨k, hk⟩).id = 0 ∧
        (edit_task (add_task emptyRepo ['a']) 0 ['b']).tasks =
          (add_task emptyRepo ['a']).tasks.set k
            { (add_task emptyRepo ['a']).tasks.get ⟨k, hk⟩ with description := ['b'] }) :=
  ⟨by decide, edit_task_frame _ 0 ['b'] (by decide)⟩

/-- C5: add_task is total — it succeeds on every repository and every
description, with no validation of the description — and it appends exactly
one task at the end (the prefix of previously existing tasks is unchanged),
whose id is the old next_id, description the given one, completed false;
next_id grows by exactly one. -/
theorem add_task_spec (r : TaskRepository) (d : List Char) :
    (add_task r d).tasks.length = r.tasks.length + 1 ∧
    (add_task r d).tasks.take r.tasks.length = r.tasks ∧
    (add_task r d).tasks.getLast? =
      some { id := r.next_id, description := d, completed := false } ∧
    (add_task r d).next_id = r.next_id + 1 := by
  refine ⟨by simp [add_task], ?_, ?_, rfl⟩
  · rw [show (add_task r d).tasks = r.tasks ++
      [{ id := r.next_id, description := d, completed := false }] from rfl,
      List.take_left]
  · rw [show (add_task r d).tasks = r.tasks ++
      [{ id := r.next_id, description := d, completed := false }] from rfl,
      List.getLast?_concat]

/-- C6: mark_completed is idempotent on every repository state and id —
applying it twice is exactly applying it once; and on a repository holding
a task with id `i` it rewrites exactly one position, setting that task's
completed flag to true and changing nothing else (next_id, the other tasks,
and the id and description of the marked task are untouched). -/
theorem mark_completed_idempotent (r : TaskRepository) (i : Nat) :
    mark_completed (mark_completed r i) i = mark_completed r i ∧
    ((∃ t ∈ r.tasks, t.id = i) →
      (mark_completed r i).next_id = r.next_id ∧
      ∃ k, ∃ hk : k < r.tasks.length,
        (r.tasks.get ⟨k, hk⟩).id = i ∧
        (mark_completed r i).tasks =
          r.tasks.set k { r.tasks.get ⟨k, hk⟩ with completed := true }) := by
  constructor
  · have key : ∀ l : List Task,
        modifyFirst (fun t => t.id == i) (fun t => { t with completed := true })
          (modifyFirst (fun t => t.id == i) (fun t => { t with completed := true }) l) =
        modifyFirst (fun t => t.id == i) (fun t => { t with completed := true }) l := by
      intro l
      induction l with
      | nil => rfl
      | cons a l ih =>
        by_cases hp : (a.id == i) = true
        · rw [modifyFirst, if_pos hp, modifyFirst, if_pos hp]
        · rw [modifyFirst, if_neg (by simp [hp]), modifyFirst,
            if_neg (by simp [hp]), ih]
    exact congrArg (fun l => TaskRepository.mk l r.next_id) (key r.tasks)
  · intro h
    have h' : ∃ u ∈ r.tasks, (u.id == i) = true := by
      rcases h with ⟨t, ht, hti⟩
      exact ⟨t, ht, beq_iff_eq.mpr hti⟩
    rcases modifyFirst_found (fun t => t.id == i)
      (fun t => { t with completed := true }) h' with ⟨k, hk, hpk, he⟩
    exact ⟨rfl, k, hk, beq_iff_eq.mp hpk, he⟩

/-- Witness for C6 on the one-task repository with id 0. -/
theorem mark_completed_idempotent_witness :
    mark_completed (mark_completed (add_task emptyRepo ['a']) 0) 0 =
      mark_completed (add_task emptyRepo ['a']) 0 ∧
    (∃ t ∈ (add_task emptyRepo ['a']).tasks, t.id = 0) ∧
    (mark_completed (add_task emptyRepo ['a']) 0).next_id =
      (add_task emptyRepo ['a']).next_id :=
  ⟨(mark_completed_idempotent _ 0).1, by decide,
   ((mark_completed_idempotent (add_task emptyRepo ['a']) 0).2 (by decide)).1⟩

/-- C7: when no task has id `i`, each of edit_task, delete_task and
mark_completed returns the repository completely unchanged (same tasks
sequence, same next_id), and — being total functions into TaskRepository —
reports no error. -/
theorem missing_id_silent_noop (r : TaskRepository) (i : Nat) (d : List Char)
    (h : ∀ t ∈ r.tasks, t.id ≠ i) :
    edit_task r i d = r ∧ delete_task r i = r ∧ mark_completed r i = r := by
  have hp : ∀ t ∈ r.tasks, (t.id == i) = false :=
    fun t ht => beq_eq_false_iff_ne.mpr (h t ht)
  refine ⟨?_, ?_, ?_⟩
  · exact congrArg (fun l => TaskRepository.mk l r.next_id)
      (modifyFirst_not_found (fun t => t.id == i)
        (fun t => { t with description := d }) hp)
  · exact congrArg (fun l => TaskRepository.mk l r.next_id)
      (List.filter_eq_self.mpr fun a ha => bne_iff_ne.mpr (h a ha))
  · exact congrArg (fun l => TaskRepository.mk l r.next_id)
      (modifyFirst_not_found (fun t => t.id == i)
        (fun t => { t with completed := true }) hp)

/-- Witness for C7: id 5 is absent from the one-task repository. -/
theorem missing_id_silent_noop_witness :
    (∀ t ∈ (add_task emptyRepo ['a']).tasks, t.id ≠ 5) ∧
    (edit_task (add_task emptyRepo ['a']) 5 ['b'] = add_task emptyRepo ['a'] ∧
      delete_task (add_task emptyRepo ['a']) 5 = add_task emptyRepo ['a'] ∧
      mark_completed (add_task emptyRepo ['a']) 5 = add_task emptyRepo ['a']) :=
  ⟨by decide, missing_id_silent_noop _ 5 ['b'] (by decide)⟩

/-- C8: load_from_file returns the parsed repository exactly when the file
was readable and its contents decode; in every other case — no readable
file, or contents the decoder rejects — it returns the fresh default
repository (tasks = [], next_id = 0). It is a total function, so no error
propagates. -/
theorem load_from_file_recovery :
    (∀ (cs : List Char) (r : TaskRepository), decodeRepo cs = some r →
      load_from_file (some cs) = r) ∧
    (∀ cs : List Char, decodeRepo cs = none → load_from_file (some cs) = emptyRepo) ∧
    load_from_file none = emptyRepo ∧
    emptyRepo.tasks = [] ∧ emptyRepo.next_id = 0 := by
  refine ⟨?_, ?_, rfl, rfl, rfl⟩
  · intro cs r h
    simp only [load_from_file, h]
  · intro cs h
    simp only [load_from_file, h]

/-- Witness for C8: a decodable content is loaded verbatim, the malformed
content "x" and an unreadable file both yield the empty default. -/
theorem load_from_file_recovery_witness :
    load_from_file (some (encodeRepo (add_task emptyRepo ['a']))) =
      add_task emptyRepo ['a'] ∧
    load_from_file (some ['x']) = emptyRepo ∧
    load_from_file none = emptyRepo :=
  ⟨load_from_file_recovery.1 _ _ (decodeRepo_encodeRepo _),
   load_from_file_recovery.2.1 _ (by decide),
   load_from_file_recovery.2.2.1⟩

/-- C9 counterexample: with the stated precondition respected — add_task
only ever called with a non-empty description — an edit_task call with the
empty string (which neither edit_task nor the GUI's edit dialog guards
against) produces a settled reachable state whose task has an empty
description, refuting "empty only transiently". -/
theorem settled_empty_description :
    ReachableNE (edit_task (add_task emptyRepo ['X']) 0 []) ∧
    (edit_task (add_task emptyRepo ['X']) 0 []).tasks.map Task.description = [[]] :=
  ⟨ReachableNE.edit _ 0 [] (ReachableNE.add _ ['X'] ReachableNE.empty (by decide)),
   by decide⟩

/-- C9 amended: under the precondition that add_task AND edit_task are only
ever invoked with a non-empty description, every task of every reachable
state has a non-empty description. -/
theorem guarded_descriptions_nonempty (r : TaskRepository) (h : ReachableGuarded r) :
    ∀ t ∈ r.tasks, t.description ≠ [] := by
  induction h with
  | empty => simp [emptyRepo]
  | add r d _ hd ih =>
    intro t ht
    rcases List.mem_append.1 ht with ht | ht
    · exact ih t ht
    · rw [List.mem_singleton.1 ht]
      exact hd
  | edit r i d _ hd ih =>
    intro t ht
    rcases mem_modifyFirst ht with ht | ⟨u, hu, rfl⟩
    · exact ih t ht
    · exact hd
  | del r i _ ih =>
    intro t ht
    exact ih t (List.mem_of_mem_filter ht)
  | mark r i _ ih =>
    intro t ht
    rcases mem_modifyFirst ht with ht | ⟨u, hu, rfl⟩
    · exact ih t ht
    · exact ih u hu

/-- Witness for C9's amended claim after a guarded add and a guarded edit:
the single task of the resulting state has a non-empty description. -/
theorem guarded_descriptions_nonempty_witness :
    ({ id := 0, description := ['b'], completed := false } : Task).description ≠ [] :=
  guarded_descriptions_nonempty _
    (ReachableGuarded.edit _ 0 ['b']
      (ReachableGuarded.add _ ['a'] ReachableGuarded.empty (by decide)) (by decide))
    { id := 0, description := ['b'], completed := false } (by decide)

/-- C10: load_from_file performs no validation of a successfully parsed
state: any decoded repository is returned verbatim — exhibited on
`badRepo`, whose persisted text parses although it has two tasks with the
same id 5 and next_id 0 below both, violating the invariant that the
operations maintain (C2); so that invariant holds only for states built by
the operations, not for arbitrary loaded states. -/
theorem load_accepts_unvalidated_state :
    (∀ (cs : List Char) (r : TaskRepository), decodeRepo cs = some r →
      load_from_file (some cs) = r) ∧
    load_from_file (some badContents) = badRepo ∧
    badRepo.tasks.map Task.id = [5, 5] ∧
    ¬ (∀ t ∈ badRepo.tasks, t.id < badRepo.next_id) := by
  refine ⟨?_, ?_, by decide, by decide⟩
  · intro cs r h
    simp only [load_from_file, h]
  · simp only [badContents, load_from_file, decodeRepo_encodeRepo]

/-- Witness for C10's universal conjunct at the concrete content of
`badRepo`. -/
theorem load_accepts_unvalidated_state_witness :
    load_from_file (some badContents) = badRepo :=
  load_accepts_unvalidated_state.1 badContents badRepo
    (decodeRepo_encodeRepo badRepo)

end Todo
